import Mathlib

/-!
Verification of the `updiff.py` reconciliation engine.

This file gives a shallow embedding of the program's data model and
operations (changeset parsing, ignore-list loading, the FTP session model
and the per-record reconciliation loop) and proves the specification
claims about them.  Each definition is annotated with the source lines of
`updiff.py` it embeds.  The FTP transport (ftplib) is an external
collaborator; it is modelled as a deterministic server state
(`RemoteFS` / `FtpConn`) whose operations succeed on existing entries,
raise a "550" error on missing ones, and raise a non-550 error on
directories marked broken.
-/

/-- Python `\s` on the ASCII range (re module whitespace class). -/
def pySpace (c : Char) : Bool :=
  c == ' ' || c == '\t' || c == '\n' || c == '\x0b' || c == '\x0c' || c == '\r'

/-- The character class `[a-z]` under `re.I`: an ASCII letter. -/
def isAsciiLetter (c : Char) : Bool :=
  ('a' ≤ c && c ≤ 'z') || ('A' ≤ c && c ≤ 'Z')

/-- Python `str.split(sep)` for a one-character separator, on char lists:
`''.split(s) = ['']`, separators delimit (possibly empty) fields. -/
def splitOnChar (sep : Char) : List Char → List (List Char)
  | [] => [[]]
  | c :: rest =>
    let r := splitOnChar sep rest
    if c = sep then [] :: r
    else
      match r with
      | [] => [[c]]
      | h :: t => (c :: h) :: t

/-- Joining fields back with the separator (used to relate a split path to
the original string in proofs). -/
def joinSep (sep : Char) : List (List Char) → List Char
  | [] => []
  | [x] => x
  | x :: y :: rest => x ++ sep :: joinSep sep (y :: rest)

/-- Python `str.split(sep)` on strings. -/
def pySplitChar (sep : Char) (s : String) : List String :=
  (splitOnChar sep s.data).map String.mk

/-- Substring occurrence test: models the truthiness of
`str(e.args).count('550')` (updiff.py lines 232, 259, 278). -/
def hasSub (pat : List Char) : List Char → Bool
  | [] => pat.isEmpty
  | c :: rest => pat.isPrefixOf (c :: rest) || hasSub pat rest

/-- Whether an FTP error message carries the protocol code 550
("no such file or directory"), the recoverable NotFound signal. -/
def is550 (msg : String) : Bool :=
  hasSub "550".data msg.data

/-- Python `str.strip()` restricted to ASCII whitespace
(updiff.py line 142). -/
def pyStrip (s : String) : String :=
  String.mk (((s.data.dropWhile pySpace).reverse.dropWhile pySpace).reverse)

/-- `posixpath.join(a, b)` (two-argument form, as used throughout
updiff.py): an absolute second argument wins; otherwise the parts are
glued with a single `/` unless the first part is empty or already ends
with one. -/
def pjoin (a b : String) : String :=
  if b.data.head? = some '/' then b
  else if a.data = [] ∨ a.data.getLast? = some '/' then a ++ b
  else a ++ "/" ++ b

/-- `posixpath.split(p)` (used at updiff.py line 305): split at the last
slash, stripping trailing slashes from the head unless the head consists
only of slashes. -/
def psplit (p : String) : String × String :=
  let cs := p.data
  let tailLen := ((cs.reverse).takeWhile (fun c => c != '/')).length
  let i := cs.length - tailLen
  let head := cs.take i
  let tl := cs.drop i
  let head2 :=
    if head ≠ [] ∧ head.any (fun c => c != '/') then
      ((head.reverse).dropWhile (fun c => c == '/')).reverse
    else head
  (String.mk head2, String.mk tl)

/-- `Ftp._full_path` (updiff.py lines 179-186): append a relative path to
the project directory; an empty path means the project directory itself. -/
def fullPath (dir path : String) : String :=
  if path = "" then dir else pjoin dir path

/-- One line of `git diff --name-status` output matched against the
pattern `^([a-z])\s+(\S+)$` with `re.I` (updiff.py line 162): a single
ASCII letter, a nonempty whitespace run, then a nonempty run of
non-whitespace reaching the end of the line. -/
def matchDiffLine (line : String) : Option (String × String) :=
  match line.data with
  | [] => none
  | c :: rest =>
    if isAsciiLetter c then
      let ws := rest.takeWhile pySpace
      let tl := rest.dropWhile pySpace
      if ws ≠ [] ∧ tl ≠ [] ∧ tl.all (fun d => !(pySpace d)) then
        some (String.mk [c], String.mk tl)
      else none
    else none

/-- The loop of `Ftp.diff` (updiff.py lines 167-170): matching lines are
appended, in order, to the accumulated file list. -/
def diffLoop (acc : List (String × String)) : List String → List (String × String)
  | [] => acc
  | l :: ls =>
    match matchDiffLine l with
    | some r => diffLoop (acc ++ [r]) ls
    | none => diffLoop acc ls

/-- Module-level constant `SETTINGS` (updiff.py line 18). -/
def SETTINGS : String := "updiff.ini"

/-- Module-level constant `IGNORE` (updiff.py line 20). -/
def IGNORE : String := "updiff.ignore"

/-- Module-level constant `DIFF` (updiff.py line 22). -/
def DIFF : String := "updiff.files"

/-- `os.path.basename(__file__)` (updiff.py line 148): the runner's own
file name. -/
def SCRIPT : String := "updiff.py"

/-- The engine's own state: the parsed change records `_files`, the
ignore list `_ignore` and the remote project root `_dir`
(updiff.py lines 126-129). -/
structure Ftp where
  files : List (String × String)
  ignore : List String
  dir : String
  deriving Repr, DecidableEq

/-- The state set up by `Ftp.__init__` (updiff.py lines 126-129): the
ignore list starts as `[SETTINGS, IGNORE, DIFF]`. -/
def Ftp.init : Ftp :=
  { files := [], ignore := [SETTINGS, IGNORE, DIFF], dir := "" }

/-- `Ftp.diff` (updiff.py lines 158-177): split the diff text into lines
and append one record per line matching the pattern. -/
def Ftp.diffRun (f : Ftp) (diffs : String) : Ftp :=
  { f with files := diffLoop f.files (pySplitChar '\n' diffs) }

/-- `Ftp.ignore` (updiff.py lines 133-156).  `fileLines` is `some` of the
ignore file's lines when `updiff.ignore` exists, else `none`; both
branches overwrite `_ignore`, then the script name and `IGNORE` are
appended, then the diff file name when it is truthy (a nonempty string). -/
def Ftp.ignoreRun (f : Ftp) (fileLines : Option (List String)) (diffFile : Option String) : Ftp :=
  let ig :=
    match fileLines with
    | some lines => lines.map pyStrip
    | none => []
  let ig := ig ++ [SCRIPT, IGNORE]
  let ig :=
    match diffFile with
    | some df => if df ≠ "" then ig ++ [df] else ig
    | none => ig
  { f with ignore := ig }

/-- The spec-side line pattern `<single-letter-status><whitespace><path>`:
a letter, a nonempty all-whitespace run, then a nonempty all-non-whitespace
run ending the line. -/
def linePattern (line : String) : Prop :=
  ∃ (c : Char) (ws p : List Char),
    line.data = c :: (ws ++ p) ∧ isAsciiLetter c = true ∧
    ws ≠ [] ∧ (∀ d ∈ ws, pySpace d = true) ∧
    p ≠ [] ∧ (∀ d ∈ p, pySpace d = false)

/-- The remote server's file system: existing directories and files (by
absolute path), plus directories into which `CWD` fails with a non-550
error (e.g. a permission failure) — the "any other failure" branch of the
transport interface. -/
structure RemoteFS where
  dirs : List String
  brokenDirs : List String
  files : List String
  deriving Repr, DecidableEq

/-- An open FTP connection: the server state plus the session's current
remote directory (the remote cursor reported by `ftp.pwd()`). -/
structure FtpConn where
  fs : RemoteFS
  cwd : String
  deriving Repr, DecidableEq

/-- How the server resolves a path argument: absolute paths stand alone,
relative ones are taken against the current directory. -/
def resolveArg (c : FtpConn) (p : String) : String :=
  if p.data.head? = some '/' then p else pjoin c.cwd p

/-- The transport primitive `ftp.cwd(p)`: entering a broken directory
raises a non-550 error, entering an existing one succeeds and moves the
cursor, anything else raises the 550 NotFound error. -/
def serverCwd (c : FtpConn) (p : String) : Except String FtpConn :=
  if resolveArg c p ∈ c.fs.brokenDirs then
    Except.error "425 cannot change directory"
  else if resolveArg c p ∈ c.fs.dirs then
    Except.ok { c with cwd := resolveArg c p }
  else
    Except.error "550 failed to change directory"

/-- The transport primitive `ftp.mkd(p)`: creates the resolved directory.
(The engine only calls it after a 550 on `cwd`; creation failures play no
role in the claims, so creation always succeeds in the model.) -/
def serverMkd (c : FtpConn) (p : String) : Except String FtpConn :=
  Except.ok { c with fs := { c.fs with dirs := resolveArg c p :: c.fs.dirs } }

/-- The transport primitive `ftp.delete(name)`: deleting an existing file
succeeds, a missing file raises the 550 NotFound error. -/
def serverDelete (c : FtpConn) (name : String) : Except String FtpConn :=
  if resolveArg c name ∈ c.fs.files then
    Except.ok { c with fs := { c.fs with files := c.fs.files.erase (resolveArg c name) } }
  else
    Except.error "550 no such file"

/-- The transport primitive `ftp.storbinary('STOR ' + name, ...)`
(updiff.py line 294): stores the file under the resolved name. -/
def serverStor (c : FtpConn) (name : String) : Except String FtpConn :=
  Except.ok { c with fs := { c.fs with files := resolveArg c name :: c.fs.files } }

/-- Python exceptions that reach the engine: re-raised ftplib errors
(carrying the protocol message), the `RuntimeError()` of the working-dir
invariant check (updiff.py line 327), and the `AttributeError` from
calling a method on `None`. -/
inductive PyExc where
  | ftpError (msg : String)
  | runtimeError
  | attributeError
  deriving Repr, DecidableEq

/-- Engine-level remote operations, recorded in order as a trace. -/
inductive Event where
  | evCwd (path : String)
  | evMkd (path : String)
  | evDelete (name : String)
  | evUpload (path name : String)
  deriving Repr, DecidableEq

/-- `Ftp.cwd` (updiff.py lines 245-264): try to enter the full remote
path; success returns `true`, a 550 error returns `false` (NOT FOUND),
any other error is re-raised. -/
def Ftp.cwdM (f : Ftp) (c : FtpConn) (path : String) : Except PyExc (Bool × FtpConn) :=
  match serverCwd c (fullPath f.dir path) with
  | Except.ok c2 => Except.ok (true, c2)
  | Except.error msg =>
    if is550 msg then Except.ok (false, c)
    else Except.error (PyExc.ftpError msg)

/-- The segment loop of `Ftp.mkd` (updiff.py lines 225-237): try to enter
each segment; on a 550 error create it and enter it (errors there
re-raise); on any other entry error print a message and continue with the
next segment. -/
def mkdLoop (c : FtpConn) : List String → Except PyExc FtpConn
  | [] => Except.ok c
  | e :: rest =>
    match serverCwd c e with
    | Except.ok c2 => mkdLoop c2 rest
    | Except.error msg =>
      if is550 msg then
        match serverMkd c e with
        | Except.ok c2 =>
          match serverCwd c2 e with
          | Except.ok c3 => mkdLoop c3 rest
          | Except.error m2 => Except.error (PyExc.ftpError m2)
        | Except.error m2 => Except.error (PyExc.ftpError m2)
      else
        mkdLoop c rest

/-- `Ftp.mkd` (updiff.py lines 214-243): return to the project root, then
walk the slash-separated segments of the relative path.  (The locals `fp`
and `pwd` of the source are used only for log messages.) -/
def Ftp.mkdM (f : Ftp) (c : FtpConn) (path : String) : Except PyExc FtpConn :=
  match serverCwd c f.dir with
  | Except.error msg => Except.error (PyExc.ftpError msg)
  | Except.ok c1 => mkdLoop c1 (pySplitChar '/' path)

/-- `Ftp.delete` (updiff.py lines 266-283): a 550 error is reported as
NOT FOUND and returns `false`; success falls through (modelled as `true`);
any other error is re-raised. -/
def deleteM (c : FtpConn) (name : String) : Except PyExc (Bool × FtpConn) :=
  match serverDelete c name with
  | Except.ok c2 => Except.ok (true, c2)
  | Except.error msg =>
    if is550 msg then Except.ok (false, c)
    else Except.error (PyExc.ftpError msg)

/-- `Ftp.upload` (updiff.py lines 285-299): store the file; any error is
re-raised. -/
def uploadM (c : FtpConn) (name : String) : Except PyExc FtpConn :=
  match serverStor c name with
  | Except.ok c2 => Except.ok c2
  | Except.error msg => Except.error (PyExc.ftpError msg)

/-- What became of one change record. -/
inductive RecordOutcome where
  | ignoredFile
  | ignoredDir
  | processed
  deriving Repr, DecidableEq

/-- Directory resolution for one record (updiff.py lines 319-320):
`if not self.cwd(path): self.mkd(path)`.  Both outcomes carry the trace
of engine operations attempted. -/
def ensureDir (f : Ftp) (c : FtpConn) (path : String) :
    Except (PyExc × List Event) (FtpConn × List Event) :=
  match Ftp.cwdM f c path with
  | Except.error e => Except.error (e, [Event.evCwd path])
  | Except.ok (true, c1) => Except.ok (c1, [Event.evCwd path])
  | Except.ok (false, c1) =>
    match Ftp.mkdM f c1 path with
    | Except.ok c2 => Except.ok (c2, [Event.evCwd path, Event.evMkd path])
    | Except.error e => Except.error (e, [Event.evCwd path, Event.evMkd path])

/-- The body of the `process` loop for one record (updiff.py lines
304-332): the file-level ignore check, the directory-level ignore check,
directory resolution, the working-directory invariant check, then the
dispatch on the status string. -/
def processRecord (f : Ftp) (c : FtpConn) (r : String × String) :
    Except (PyExc × List Event) (RecordOutcome × FtpConn × List Event) :=
  if r.2 ∈ f.ignore then
    Except.ok (RecordOutcome.ignoredFile, c, [])
  else if pjoin (psplit r.2).1 "" ∈ f.ignore then
    Except.ok (RecordOutcome.ignoredDir, c, [])
  else
    match ensureDir f c (psplit r.2).1 with
    | Except.error etr => Except.error etr
    | Except.ok (c2, tr) =>
      if fullPath f.dir (psplit r.2).1 ≠ c2.cwd then
        Except.error (PyExc.runtimeError, tr)
      else if r.1 = "D" then
        match deleteM c2 (psplit r.2).2 with
        | Except.ok (_, c3) =>
          Except.ok (RecordOutcome.processed, c3, tr ++ [Event.evDelete (psplit r.2).2])
        | Except.error e => Except.error (e, tr ++ [Event.evDelete (psplit r.2).2])
      else
        match uploadM c2 (psplit r.2).2 with
        | Except.ok c3 =>
          Except.ok (RecordOutcome.processed, c3, tr ++ [Event.evUpload r.2 (psplit r.2).2])
        | Except.error e => Except.error (e, tr ++ [Event.evUpload r.2 (psplit r.2).2])

/-- Prefix a trace onto the result of the remaining loop. -/
def prependRes (tr : List Event) :
    Except (PyExc × List Event) (FtpConn × List Event) →
    Except (PyExc × List Event) (FtpConn × List Event)
  | Except.error (e, tr2) => Except.error (e, tr ++ tr2)
  | Except.ok (c, tr2) => Except.ok (c, tr ++ tr2)

/-- The `process` loop over all records (updiff.py lines 304-332): an
exception raised for one record aborts the whole batch; otherwise the
next record is processed from the resulting session state. -/
def processLoop (f : Ftp) : FtpConn → List (String × String) →
    Except (PyExc × List Event) (FtpConn × List Event)
  | c, [] => Except.ok (c, [])
  | c, r :: rest =>
    match processRecord f c r with
    | Except.error etr => Except.error etr
    | Except.ok (_, c1, tr) => prependRes tr (processLoop f c1 rest)

/-- `Ftp.process` (updiff.py lines 301-332). -/
def Ftp.processRun (f : Ftp) (c : FtpConn) :
    Except (PyExc × List Event) (FtpConn × List Event) :=
  processLoop f c f.files

/-- The trace of engine operations attempted for one record, whether or
not the record raised. -/
def resTrace :
    Except (PyExc × List Event) (RecordOutcome × FtpConn × List Event) → List Event
  | Except.error (_, tr) => tr
  | Except.ok (_, _, tr) => tr

/-- `Ftp.disconnect` (updiff.py lines 334-338): `self._ftp.quit()` then
`self._ftp = None`.  On a connected session `quit` succeeds and the handle
is dropped; when `_ftp` is `None`, calling `.quit()` on it raises
`AttributeError`. -/
def disconnectRun : Option FtpConn → Except PyExc (Option FtpConn)
  | none => Except.error PyExc.attributeError
  | some _ => Except.ok none

/-- The chain of absolute directories visited by the `mkd` segment walk
starting from `d`. -/
def chainNodes (d : String) : List String → List String
  | [] => []
  | e :: rest => pjoin d e :: chainNodes (pjoin d e) rest

/-- The directory at the end of the `mkd` segment walk. -/
def chainEnd (d : String) (elems : List String) : String :=
  elems.foldl pjoin d


theorem str_ext {a b : String} (h : a.data = b.data) : a = b := by
  cases a
  cases b
  exact congrArg String.mk (by simpa using h)

theorem str_data_ne_nil {e : String} (h : e ≠ "") : e.data ≠ [] := by
  intro hd
  exact h (str_ext (by simpa using hd))

theorem takeWhile_split {q : Char → Bool} :
    ∀ (ws p : List Char), (∀ d ∈ ws, q d = true) → (∀ d ∈ p, q d = false) →
      (ws ++ p).takeWhile q = ws ∧ (ws ++ p).dropWhile q = p := by
  intro ws
  induction ws with
  | nil =>
    intro p _ hp
    cases p with
    | nil => exact ⟨rfl, rfl⟩
    | cons a t =>
      refine ⟨?_, ?_⟩
      · simp [List.takeWhile_cons, hp a (by simp)]
      · simp [List.dropWhile_cons, hp a (by simp)]
  | cons a t ih =>
    intro p hws hp
    have ha : q a = true := hws a (by simp)
    have ht := ih p (fun d hd => hws d (by simp [hd])) hp
    refine ⟨?_, ?_⟩
    · simp [List.takeWhile_cons, ha, ht.1]
    · simp [List.dropWhile_cons, ha, ht.2]

theorem takeWhile_all {q : Char → Bool} (l : List Char) (h : ∀ d ∈ l, q d = true) :
    l.takeWhile q = l := by
  have := (takeWhile_split l [] h (by simp)).1
  simpa using this

theorem psplit_no_slash (p : String) (h : '/' ∉ p.data) : psplit p = ("", p) := by
  have hall : (p.data.reverse).takeWhile (fun c => c != '/') = p.data.reverse := by
    refine takeWhile_all _ ?_
    intro d hd
    have : d ∈ p.data := List.mem_reverse.mp hd
    simp only [bne_iff_ne, ne_eq]
    intro hdd
    exact h (hdd ▸ this)
  simp only [psplit, hall, List.length_reverse, Nat.sub_self, List.take_zero, List.drop_zero]
  simp

theorem splitOnChar_ne_nil (sep : Char) : ∀ cs, splitOnChar sep cs ≠ [] := by
  intro cs
  induction cs with
  | nil => simp [splitOnChar]
  | cons c rest ih =>
    simp only [splitOnChar]
    by_cases hc : c = sep
    · simp [hc]
    · simp only [if_neg hc]
      cases hr : splitOnChar sep rest with
      | nil => exact absurd hr ih
      | cons h t => simp

theorem joinSep_splitOnChar (sep : Char) : ∀ cs, joinSep sep (splitOnChar sep cs) = cs := by
  intro cs
  induction cs with
  | nil => rfl
  | cons c rest ih =>
    cases hr : splitOnChar sep rest with
    | nil => exact absurd hr (splitOnChar_ne_nil sep rest)
    | cons h t =>
      rw [hr] at ih
      by_cases hc : c = sep
      · have hcc : splitOnChar sep (c :: rest) = [] :: h :: t := by
          simp [splitOnChar, hc, hr]
        rw [hcc]
        show [] ++ sep :: joinSep sep (h :: t) = c :: rest
        rw [ih]
        simp [hc]
      · have hcc : splitOnChar sep (c :: rest) = (c :: h) :: t := by
          simp [splitOnChar, hc, hr]
        rw [hcc]
        cases t with
        | nil =>
          show (c :: h : List Char) = c :: rest
          simp only [joinSep] at ih
          rw [ih]
        | cons y t2 =>
          show (c :: h) ++ sep :: joinSep sep (y :: t2) = c :: rest
          simp only [joinSep] at ih
          rw [List.cons_append, ih]

theorem mem_splitOnChar_no_sep (sep : Char) :
    ∀ cs x, x ∈ splitOnChar sep cs → sep ∉ x := by
  intro cs
  induction cs with
  | nil =>
    intro x hx
    simp [splitOnChar] at hx
    simp [hx]
  | cons c rest ih =>
    intro x hx
    cases hr : splitOnChar sep rest with
    | nil => exact absurd hr (splitOnChar_ne_nil sep rest)
    | cons h t =>
      by_cases hc : c = sep
      · have hcc : splitOnChar sep (c :: rest) = [] :: h :: t := by
          simp [splitOnChar, hc, hr]
        rw [hcc] at hx
        rcases List.mem_cons.mp hx with h1 | h2
        · simp [h1]
        · exact ih x (by rw [hr]; exact h2)
      · have hcc : splitOnChar sep (c :: rest) = (c :: h) :: t := by
          simp [splitOnChar, hc, hr]
        rw [hcc] at hx
        rcases List.mem_cons.mp hx with h1 | h2
        · subst h1
          intro hmem
          rcases List.mem_cons.mp hmem with h3 | h4
          · exact hc h3.symm
          · exact ih h (by rw [hr]; simp) h4
        · exact ih x (by rw [hr]; exact List.mem_cons_of_mem _ h2)

theorem getLast?_append_cons :
    ∀ (xs : List Char) (c : Char) (ys : List Char),
      (xs ++ c :: ys).getLast? = (c :: ys).getLast? := by
  intro xs
  induction xs with
  | nil => intro c ys; rfl
  | cons a t ih =>
    intro c ys
    rw [List.cons_append]
    cases he : t ++ c :: ys with
    | nil => exact absurd he (by simp)
    | cons b l2 =>
      calc (a :: b :: l2).getLast? = (b :: l2).getLast? := by
            simp [List.getLast?]
        _ = (c :: ys).getLast? := by rw [← he, ih]

theorem getLast?_mem : ∀ (l : List Char), l ≠ [] → ∃ x, l.getLast? = some x ∧ x ∈ l := by
  intro l
  induction l with
  | nil => intro h; exact absurd rfl h
  | cons a t ih =>
    intro _
    cases t with
    | nil => exact ⟨a, rfl, by simp⟩
    | cons b t2 =>
      obtain ⟨x, hx, hm⟩ := ih (by simp)
      refine ⟨x, ?_, by simp [List.mem_cons.mp hm]⟩
      calc (a :: b :: t2).getLast? = (b :: t2).getLast? := by simp [List.getLast?]
        _ = some x := hx

theorem head?_mem {x : Char} : ∀ {l : List Char}, l.head? = some x → x ∈ l := by
  intro l h
  cases l with
  | nil => simp at h
  | cons a t =>
    simp at h
    simp [h]

theorem pjoin_slash (d e : String) (hd : d.data ≠ []) (hdl : d.data.getLast? ≠ some '/')
    (he : e.data.head? ≠ some '/') : pjoin d e = d ++ "/" ++ e := by
  simp only [pjoin, if_neg he]
  rw [if_neg]
  push_neg
  exact ⟨hd, hdl⟩

theorem pjoin_data_slash (d e : String) (hd : d.data ≠ []) (hdl : d.data.getLast? ≠ some '/')
    (he : e.data.head? ≠ some '/') : (pjoin d e).data = d.data ++ '/' :: e.data := by
  rw [pjoin_slash d e hd hdl he, String.data_append, String.data_append]
  show (d.data ++ ['/']) ++ e.data = _
  simp

theorem head?_ne_slash {e : List Char} (_hne : e ≠ []) (hns : '/' ∉ e) :
    e.head? ≠ some '/' := by
  intro h
  exact hns (head?_mem h)

theorem chainEnd_data :
    ∀ (elems : List String) (d : String),
      d.data ≠ [] → d.data.getLast? ≠ some '/' →
      (∀ e ∈ elems, e.data ≠ [] ∧ '/' ∉ e.data) →
      elems ≠ [] →
      (chainEnd d elems).data = d.data ++ '/' :: joinSep '/' (elems.map String.data) := by
  intro elems
  induction elems with
  | nil => intro d _ _ _ h; exact absurd rfl h
  | cons e tl ih =>
    intro d hd hdl hel _
    have he := hel e (by simp)
    have hehd : e.data.head? ≠ some '/' := head?_ne_slash he.1 he.2
    cases tl with
    | nil =>
      show (pjoin d e).data = d.data ++ '/' :: joinSep '/' [e.data]
      rw [pjoin_data_slash d e hd hdl hehd]
      rfl
    | cons y t2 =>
      have hd2 : (pjoin d e).data ≠ [] := by
        rw [pjoin_data_slash d e hd hdl hehd]
        simp
      have hdl2 : (pjoin d e).data.getLast? ≠ some '/' := by
        rw [pjoin_data_slash d e hd hdl hehd]
        cases hce : e.data with
        | nil => exact absurd hce he.1
        | cons a t =>
          rw [show d.data ++ '/' :: a :: t = (d.data ++ ['/']) ++ a :: t by simp,
            getLast?_append_cons]
          obtain ⟨x, hx, hxm⟩ := getLast?_mem (a :: t) (by simp)
          rw [hx]
          intro hcontra
          apply he.2
          rw [hce]
          have : x = '/' := by simpa using hcontra
          exact this ▸ hxm
      have := ih (pjoin d e) hd2 hdl2 (fun x hx => hel x (by simp [hx])) (by simp)
      show (chainEnd (pjoin d e) (y :: t2)).data = _
      rw [this, pjoin_data_slash d e hd hdl hehd]
      show (d.data ++ '/' :: e.data) ++ '/' :: joinSep '/' ((y :: t2).map String.data) = _
      simp only [List.map_cons, List.append_assoc, List.cons_append]
      rfl

theorem pySplitChar_elems_no_slash (path : String) (e : String)
    (he : e ∈ pySplitChar '/' path) : '/' ∉ e.data := by
  simp only [pySplitChar, List.mem_map] at he
  obtain ⟨x, hx, hex⟩ := he
  rw [← hex]
  exact mem_splitOnChar_no_sep '/' path.data x hx

theorem pySplitChar_join (path : String) :
    joinSep '/' ((pySplitChar '/' path).map String.data) = path.data := by
  simp only [pySplitChar, List.map_map]
  have : (String.data ∘ String.mk) = id := by
    funext x
    rfl
  rw [this, List.map_id]
  exact joinSep_splitOnChar '/' path.data

theorem chainEnd_eq_fullPath (d path : String) (elems : List String)
    (hsplit : pySplitChar '/' path = elems)
    (hd : d.data ≠ []) (hdl : d.data.getLast? ≠ some '/')
    (hel : ∀ e ∈ elems, e.data ≠ [] ∧ '/' ∉ e.data) :
    chainEnd d elems = fullPath d path := by
  have hne : elems ≠ [] := by
    rw [← hsplit]
    simp only [pySplitChar]
    intro hcontra
    exact splitOnChar_ne_nil '/' path.data (by simpa using hcontra)
  have hjoin : joinSep '/' (elems.map String.data) = path.data := by
    rw [← hsplit]
    exact pySplitChar_join path
  cases helems : elems with
  | nil => exact absurd helems hne
  | cons e0 tl =>
    have he0 := hel e0 (by simp [helems])
    have hpd : path.data = joinSep '/' ((e0 :: tl).map String.data) := by
      rw [← helems, hjoin]
    have hpne : path.data ≠ [] := by
      rw [hpd]
      cases tl with
      | nil => exact he0.1
      | cons y t2 =>
        show e0.data ++ '/' :: joinSep '/' ((y :: t2).map String.data) ≠ []
        simp
    have hphd : path.data.head? ≠ some '/' := by
      rw [hpd]
      cases hce : e0.data with
      | nil => exact absurd hce he0.1
      | cons a t =>
        have ha : a ≠ '/' := by
          intro h
          exact he0.2 (by rw [hce]; simp [h])
        cases tl with
        | nil =>
          show (e0.data : List Char).head? ≠ some '/'
          rw [hce]
          simpa using ha
        | cons y t2 =>
          show (e0.data ++ '/' :: joinSep '/' ((y :: t2).map String.data)).head? ≠ some '/'
          rw [hce, List.cons_append]
          simpa using ha
    have hpathne : path ≠ "" := by
      intro h
      rw [h] at hpne
      exact hpne rfl
    rw [← helems]
    apply str_ext
    rw [chainEnd_data elems d hd hdl hel hne]
    simp only [fullPath, if_neg hpathne]
    rw [pjoin_data_slash d path hd hdl hphd, hjoin]

theorem matchDiffLine_some_iff (line s p : String) :
    matchDiffLine line = some (s, p) ↔
      ∃ (c : Char) (ws : List Char),
        line.data = c :: (ws ++ p.data) ∧ s = String.mk [c] ∧ isAsciiLetter c = true ∧
        ws ≠ [] ∧ (∀ d ∈ ws, pySpace d = true) ∧
        p.data ≠ [] ∧ (∀ d ∈ p.data, pySpace d = false) := by
  constructor
  · intro h
    cases hld : line.data with
    | nil => simp [matchDiffLine, hld] at h
    | cons c rest =>
      simp only [matchDiffLine, hld] at h
      by_cases hl : isAsciiLetter c
      · rw [if_pos hl] at h
        by_cases hcond : rest.takeWhile pySpace ≠ [] ∧ rest.dropWhile pySpace ≠ [] ∧
            (rest.dropWhile pySpace).all (fun d => !(pySpace d))
        · rw [if_pos hcond] at h
          have hs : String.mk [c] = s := (Prod.mk.injEq .. ▸ Option.some.inj h).1
          have hp : String.mk (rest.dropWhile pySpace) = p :=
            (Prod.mk.injEq .. ▸ Option.some.inj h).2
          refine ⟨c, rest.takeWhile pySpace, ?_, hs.symm, hl, hcond.1, ?_, ?_, ?_⟩
          · rw [← hp]
            show c :: rest = c :: (rest.takeWhile pySpace ++ rest.dropWhile pySpace)
            rw [List.takeWhile_append_dropWhile]
          · intro d hd
            exact List.mem_takeWhile_imp hd
          · rw [← hp]
            exact hcond.2.1
          · intro d hd
            rw [← hp] at hd
            have := List.all_eq_true.mp hcond.2.2 d hd
            simpa using this
        · rw [if_neg hcond] at h
          exact absurd h (by simp)
      · rw [if_neg hl] at h
        exact absurd h (by simp)
  · rintro ⟨c, ws, hline, hsc, hlet, hws, hwsall, hpne, hpall⟩
    have hsplit := takeWhile_split (q := pySpace) ws p.data hwsall hpall
    have hcnd : ws ≠ [] ∧ p.data ≠ [] ∧ (p.data.all fun d => !(pySpace d)) = true := by
      refine ⟨hws, hpne, ?_⟩
      rw [List.all_eq_true]
      intro d hd
      simp [hpall d hd]
    simp only [matchDiffLine, hline, if_pos hlet, hsplit.1, hsplit.2]
    rw [if_pos hcnd, hsc]

theorem diffLoop_eq : ∀ (ls : List String) (acc : List (String × String)),
    diffLoop acc ls = acc ++ ls.filterMap matchDiffLine := by
  intro ls
  induction ls with
  | nil => intro acc; simp [diffLoop]
  | cons l t ih =>
    intro acc
    cases hm : matchDiffLine l with
    | none => simp [diffLoop, hm, ih]
    | some r => simp [diffLoop, hm, ih]

/-- C5: the changeset parser yields exactly one record per line matching
`<single-letter-status><whitespace><path>` (status letter
case-insensitive), in input order, silently skipping non-matching lines;
empty input yields an empty sequence.  Stated as: `Ftp.diff` appends the
in-order `filterMap` of the line matcher over the split lines; a line
matches exactly when it has the pattern's shape; the empty input adds no
records; and the spec's example parses to its two records. -/
theorem c5_changeset_parsing (f : Ftp) (diffs : String) :
    (Ftp.diffRun f diffs).files = f.files ++ (pySplitChar '\n' diffs).filterMap matchDiffLine ∧
    (∀ l : String, (matchDiffLine l).isSome = true ↔ linePattern l) ∧
    (Ftp.diffRun f "").files = f.files ∧
    (Ftp.diffRun { files := [], ignore := [], dir := "" }
        "M src/a.txt\nbadline\nD src/b.txt\n").files
      = [("M", "src/a.txt"), ("D", "src/b.txt")] := by
  refine ⟨?_, ?_, ?_, ?_⟩
  · simp [Ftp.diffRun, diffLoop_eq]
  · intro l
    constructor
    · intro h
      obtain ⟨⟨s, p⟩, hsp⟩ := Option.isSome_iff_exists.mp h
      obtain ⟨c, ws, hline, _, hlet, hws, hwsall, hpne, hpall⟩ :=
        (matchDiffLine_some_iff l s p).mp hsp
      exact ⟨c, ws, p.data, hline, hlet, hws, hwsall, hpne, hpall⟩
    · rintro ⟨c, ws, pl, hline, hlet, hws, hwsall, hpne, hpall⟩
      have : matchDiffLine l = some (String.mk [c], String.mk pl) := by
        apply (matchDiffLine_some_iff l (String.mk [c]) (String.mk pl)).mpr
        exact ⟨c, ws, hline, rfl, hlet, hws, hwsall, hpne, hpall⟩
      simp [this]
  · rfl
  · rfl

/-- C10: a changeset line whose path field contains internal whitespace
(such as "M my file.txt") yields no record, because the matched path is a
run of non-whitespace characters anchored at the end of the line: the
example line is skipped, and every successful match has a nonempty
all-non-whitespace path that is a suffix of the line. -/
theorem c10_internal_whitespace :
    matchDiffLine "M my file.txt" = none ∧
    (Ftp.diffRun { files := [], ignore := [], dir := "" } "M my file.txt").files = [] ∧
    (∀ (line s p : String), matchDiffLine line = some (s, p) →
      p.data ≠ [] ∧ (∀ d ∈ p.data, pySpace d = false) ∧
      ∃ pre, line.data = pre ++ p.data) := by
  refine ⟨rfl, rfl, ?_⟩
  intro line s p h
  obtain ⟨c, ws, hline, _, _, _, _, hpne, hpall⟩ := (matchDiffLine_some_iff line s p).mp h
  exact ⟨hpne, hpall, c :: ws, by simp [hline]⟩

theorem c10_witness :
    ("a.txt" : String).data ≠ [] ∧
    (∀ d ∈ ("a.txt" : String).data, pySpace d = false) ∧
    (∃ pre, ("M a.txt" : String).data = pre ++ ("a.txt" : String).data) :=
  c10_internal_whitespace.2.2 "M a.txt" "M" "a.txt" rfl

theorem pyStrip_all_space (l : String) (h : ∀ d ∈ l.data, pySpace d = true) :
    pyStrip l = "" := by
  have hd : l.data.dropWhile pySpace = [] := by
    have := (takeWhile_split (q := pySpace) l.data [] h (by simp)).2
    simpa using this
  apply str_ext
  simp [pyStrip, hd]

/-- C2 counterexample: with no ignore file and no changeset file, the
effective ignore set after `Ftp.ignore` runs is exactly the script name
and the ignore-file name — the settings file name is not a member, because
`Ftp.ignore` overwrites the constructor's default list. -/
theorem c2_counterexample :
    (Ftp.ignoreRun Ftp.init none none).ignore = [SCRIPT, IGNORE] ∧
    SETTINGS ∉ (Ftp.ignoreRun Ftp.init none none).ignore := by
  refine ⟨rfl, ?_⟩
  decide

/-- C2 (amended): after loading, the runner's own file name and the
ignore-list file name are always members of the effective ignore set, and
the changeset file name is a member when supplied and nonempty; when an
ignore file exists these implicit entries are appended to the loaded
(stripped) lines; the settings file name is not implicitly added — the
pre-load default list is overwritten in both branches. -/
theorem c2_implicit_ignore_entries (f : Ftp) (fileLines : Option (List String))
    (df : Option String) :
    SCRIPT ∈ (Ftp.ignoreRun f fileLines df).ignore ∧
    IGNORE ∈ (Ftp.ignoreRun f fileLines df).ignore ∧
    (∀ d, df = some d → d ≠ "" → d ∈ (Ftp.ignoreRun f fileLines df).ignore) ∧
    (∀ ls, fileLines = some ls →
      (Ftp.ignoreRun f fileLines df).ignore =
        ls.map pyStrip ++ [SCRIPT, IGNORE] ++
          (match df with
           | some d => if d ≠ "" then [d] else []
           | none => [])) ∧
    (fileLines = none →
      (Ftp.ignoreRun f fileLines df).ignore =
        [SCRIPT, IGNORE] ++
          (match df with
           | some d => if d ≠ "" then [d] else []
           | none => [])) := by
  cases fileLines with
  | some ls =>
    cases df with
    | some d =>
      by_cases hd : d = ""
      · subst hd
        refine ⟨by simp [Ftp.ignoreRun], by simp [Ftp.ignoreRun], ?_, ?_, by simp⟩
        · intro d2 hd2 hne
          rw [Option.some.inj hd2] at hne
          exact absurd rfl hne
        · intro ls2 hls2
          rw [Option.some.inj hls2]
          simp [Ftp.ignoreRun]
      · refine ⟨by simp [Ftp.ignoreRun, hd], by simp [Ftp.ignoreRun, hd], ?_, ?_, by simp⟩
        · intro d2 hd2 _
          rw [← Option.some.inj hd2]
          simp [Ftp.ignoreRun, hd]
        · intro ls2 hls2
          rw [Option.some.inj hls2]
          simp [Ftp.ignoreRun, hd]
    | none =>
      refine ⟨by simp [Ftp.ignoreRun], by simp [Ftp.ignoreRun], by simp, ?_, by simp⟩
      intro ls2 hls2
      rw [Option.some.inj hls2]
      simp [Ftp.ignoreRun]
  | none =>
    cases df with
    | some d =>
      by_cases hd : d = ""
      · subst hd
        refine ⟨by simp [Ftp.ignoreRun], by simp [Ftp.ignoreRun], ?_, by simp, ?_⟩
        · intro d2 hd2 hne
          rw [Option.some.inj hd2] at hne
          exact absurd rfl hne
        · intro _
          simp [Ftp.ignoreRun]
      · refine ⟨by simp [Ftp.ignoreRun, hd], by simp [Ftp.ignoreRun, hd], ?_, by simp, ?_⟩
        · intro d2 hd2 _
          rw [← Option.some.inj hd2]
          simp [Ftp.ignoreRun, hd]
        · intro _
          simp [Ftp.ignoreRun, hd]
    | none =>
      exact ⟨by simp [Ftp.ignoreRun], by simp [Ftp.ignoreRun], by simp, by simp, by
        intro _
        simp [Ftp.ignoreRun]⟩

theorem c2_witness :
    SCRIPT ∈ (Ftp.ignoreRun Ftp.init (some ["a"]) (some DIFF)).ignore ∧
    IGNORE ∈ (Ftp.ignoreRun Ftp.init (some ["a"]) (some DIFF)).ignore ∧
    DIFF ∈ (Ftp.ignoreRun Ftp.init (some ["a"]) (some DIFF)).ignore ∧
    (Ftp.ignoreRun Ftp.init (some ["a"]) (some DIFF)).ignore =
      ["a"].map pyStrip ++ [SCRIPT, IGNORE] ++ [DIFF] := by
  have h := c2_implicit_ignore_entries Ftp.init (some ["a"]) (some DIFF)
  refine ⟨h.1, h.2.1, h.2.2.1 DIFF rfl (by decide), ?_⟩
  have h4 := h.2.2.2.1 ["a"] rfl
  rw [h4]
  decide

theorem ensureDir_trace_shape (f : Ftp) (c : FtpConn) (path : String) :
    (∀ c2 tr, ensureDir f c path = Except.ok (c2, tr) →
      tr = [Event.evCwd path] ∨ tr = [Event.evCwd path, Event.evMkd path]) ∧
    (∀ e tr, ensureDir f c path = Except.error (e, tr) →
      tr = [Event.evCwd path] ∨ tr = [Event.evCwd path, Event.evMkd path]) := by
  constructor
  · intro c2 tr h
    unfold ensureDir at h
    cases hcw : Ftp.cwdM f c path with
    | error e0 =>
      rw [hcw] at h
      simp at h
    | ok bc =>
      obtain ⟨b, c1⟩ := bc
      rw [hcw] at h
      cases b with
      | true =>
        simp at h
        exact Or.inl h.2.symm
      | false =>
        simp only [] at h
        cases hm : Ftp.mkdM f c1 path with
        | ok c2b =>
          rw [hm] at h
          simp at h
          exact Or.inr h.2.symm
        | error e0 =>
          rw [hm] at h
          simp at h
  · intro e tr h
    unfold ensureDir at h
    cases hcw : Ftp.cwdM f c path with
    | error e0 =>
      rw [hcw] at h
      simp at h
      exact Or.inl h.2.symm
    | ok bc =>
      obtain ⟨b, c1⟩ := bc
      rw [hcw] at h
      cases b with
      | true =>
        simp at h
      | false =>
        simp only [] at h
        cases hm : Ftp.mkdM f c1 path with
        | ok c2b =>
          rw [hm] at h
          simp at h
        | error e0 =>
          rw [hm] at h
          simp at h
          exact Or.inr h.2.symm

/-- C1: for every non-ignored record, once directory resolution
(`change_directory` falling back to `make_directory_path`) has finished,
a mismatch between the expected full remote path (project root joined
with the record's directory) and the session's current directory raises
`RuntimeError`: the record's processing ends in that error, the trace up
to that point contains no delete and no upload, and the whole batch run
aborts with the same error. -/
theorem c1_invariant_abort
    (f : Ftp) (c : FtpConn) (r : String × String) (c2 : FtpConn) (tr : List Event)
    (hifile : r.2 ∉ f.ignore)
    (hidir : pjoin (psplit r.2).1 "" ∉ f.ignore)
    (hres : ensureDir f c (psplit r.2).1 = Except.ok (c2, tr))
    (hdiff : fullPath f.dir (psplit r.2).1 ≠ c2.cwd) :
    processRecord f c r = Except.error (PyExc.runtimeError, tr) ∧
    (∀ name, Event.evDelete name ∉ tr) ∧
    (∀ p name, Event.evUpload p name ∉ tr) ∧
    (∀ rest, processLoop f c (r :: rest) = Except.error (PyExc.runtimeError, tr)) := by
  have hproc : processRecord f c r = Except.error (PyExc.runtimeError, tr) := by
    simp only [processRecord, if_neg hifile, if_neg hidir, hres]
    rw [if_pos hdiff]
  have htr := (ensureDir_trace_shape f c (psplit r.2).1).1 c2 tr hres
  refine ⟨hproc, ?_, ?_, ?_⟩
  · intro name
    rcases htr with h | h <;> simp [h]
  · intro p name
    rcases htr with h | h <;> simp [h]
  · intro rest
    simp [processLoop, hproc]

theorem c1_witness :
    processRecord { files := [("A", "a/b/f.txt")], ignore := [], dir := "/root" }
        { fs := { dirs := ["/", "/root"], brokenDirs := ["/root/a"], files := [] },
          cwd := "/root" }
        ("A", "a/b/f.txt")
      = Except.error (PyExc.runtimeError, [Event.evCwd "a/b", Event.evMkd "a/b"]) :=
  (c1_invariant_abort
    { files := [("A", "a/b/f.txt")], ignore := [], dir := "/root" }
    { fs := { dirs := ["/", "/root"], brokenDirs := ["/root/a"], files := [] },
      cwd := "/root" }
    ("A", "a/b/f.txt")
    { fs := { dirs := ["/root/b", "/", "/root"], brokenDirs := ["/root/a"], files := [] },
      cwd := "/root/b" }
    [Event.evCwd "a/b", Event.evMkd "a/b"]
    (by decide) (by decide) (by rfl) (by decide)).1

/-- C3 counterexample: the parser (case-insensitive) accepts the record
("d", "f.txt") — a Deleted record under the case-insensitive reading the
claim asserts — but the engine's dispatch compares the status string to
"D" exactly, so this record is uploaded, not deleted. -/
theorem c3_counterexample :
    matchDiffLine "d\tf.txt" = some ("d", "f.txt") ∧
    processRecord { files := [("d", "f.txt")], ignore := [], dir := "/root" }
        { fs := { dirs := ["/", "/root"], brokenDirs := [], files := ["/root/f.txt"] },
          cwd := "/root" }
        ("d", "f.txt")
      = Except.ok (RecordOutcome.processed,
          { fs := { dirs := ["/", "/root"], brokenDirs := [],
                    files := ["/root/f.txt", "/root/f.txt"] }, cwd := "/root" },
          [Event.evCwd "", Event.evUpload "f.txt" "f.txt"]) ∧
    Event.evDelete "f.txt" ∉
      resTrace (processRecord { files := [("d", "f.txt")], ignore := [], dir := "/root" }
        { fs := { dirs := ["/", "/root"], brokenDirs := [], files := ["/root/f.txt"] },
          cwd := "/root" }
        ("d", "f.txt")) := by
  refine ⟨rfl, rfl, ?_⟩
  decide

/-- C3 (amended): for a surviving record whose directory resolution
succeeded and whose working-directory check passes, the engine dispatches
case-sensitively on the literal status string: the final operation is
`delete(filename)` exactly when the status is the exact string "D", and
`upload(record.path, filename)` for any other status — including a
lowercase "d". -/
theorem c3_dispatch_case_sensitive
    (f : Ftp) (c : FtpConn) (r : String × String) (c2 : FtpConn) (tr : List Event)
    (hifile : r.2 ∉ f.ignore)
    (hidir : pjoin (psplit r.2).1 "" ∉ f.ignore)
    (hres : ensureDir f c (psplit r.2).1 = Except.ok (c2, tr))
    (heq : fullPath f.dir (psplit r.2).1 = c2.cwd) :
    resTrace (processRecord f c r) =
      tr ++ [if r.1 = "D" then Event.evDelete (psplit r.2).2
             else Event.evUpload r.2 (psplit r.2).2] := by
  have hne : ¬fullPath f.dir (psplit r.2).1 ≠ c2.cwd := by simp [heq]
  simp only [processRecord, if_neg hifile, if_neg hidir, hres, if_neg hne]
  by_cases hD : r.1 = "D"
  · rw [if_pos hD]
    cases hdel : deleteM c2 (psplit r.2).2 with
    | ok bc =>
      obtain ⟨b, c3⟩ := bc
      simp [resTrace, hD]
    | error e =>
      simp [resTrace, hD]
  · rw [if_neg hD]
    cases hup : uploadM c2 (psplit r.2).2 with
    | ok c3 =>
      simp [resTrace, hD]
    | error e =>
      simp [resTrace, hD]

theorem c3_witness :
    resTrace (processRecord { files := [("D", "f.txt")], ignore := [], dir := "/root" }
        { fs := { dirs := ["/", "/root"], brokenDirs := [], files := ["/root/f.txt"] },
          cwd := "/root" }
        ("D", "f.txt"))
      = [Event.evCwd "", Event.evDelete "f.txt"] := by
  have h := c3_dispatch_case_sensitive
    { files := [("D", "f.txt")], ignore := [], dir := "/root" }
    { fs := { dirs := ["/", "/root"], brokenDirs := [], files := ["/root/f.txt"] },
      cwd := "/root" }
    ("D", "f.txt")
    { fs := { dirs := ["/", "/root"], brokenDirs := [], files := ["/root/f.txt"] },
      cwd := "/root" }
    [Event.evCwd ""]
    (by decide) (by decide) (by rfl) (by rfl)
  rw [h]
  rfl

/-- C6: deleting a record whose remote file does not exist is a normal,
recoverable outcome: `delete` returns the NOT FOUND result instead of
raising, the record completes with the session's files unchanged, and the
batch goes on to process every subsequent record from the resulting
state. -/
theorem c6_delete_missing_nonfatal
    (f : Ftp) (c : FtpConn) (r : String × String)
    (hD : r.1 = "D")
    (hifile : r.2 ∉ f.ignore)
    (hidir : pjoin (psplit r.2).1 "" ∉ f.ignore)
    (habs : (fullPath f.dir (psplit r.2).1).data.head? = some '/')
    (hbrk : fullPath f.dir (psplit r.2).1 ∉ c.fs.brokenDirs)
    (hdir : fullPath f.dir (psplit r.2).1 ∈ c.fs.dirs)
    (hmiss : resolveArg { c with cwd := fullPath f.dir (psplit r.2).1 } (psplit r.2).2
      ∉ c.fs.files) :
    processRecord f c r =
      Except.ok (RecordOutcome.processed, { c with cwd := fullPath f.dir (psplit r.2).1 },
        [Event.evCwd (psplit r.2).1, Event.evDelete (psplit r.2).2]) ∧
    ({ c with cwd := fullPath f.dir (psplit r.2).1 } : FtpConn).fs.files = c.fs.files ∧
    (∀ rest, processLoop f c (r :: rest) =
      prependRes [Event.evCwd (psplit r.2).1, Event.evDelete (psplit r.2).2]
        (processLoop f { c with cwd := fullPath f.dir (psplit r.2).1 } rest)) := by
  have hserv : serverCwd c (fullPath f.dir (psplit r.2).1) =
      Except.ok { c with cwd := fullPath f.dir (psplit r.2).1 } := by
    simp only [serverCwd, resolveArg, if_pos habs]
    rw [if_neg hbrk, if_pos hdir]
  have hcwdM : Ftp.cwdM f c (psplit r.2).1 =
      Except.ok (true, { c with cwd := fullPath f.dir (psplit r.2).1 }) := by
    simp only [Ftp.cwdM, hserv]
  have hens : ensureDir f c (psplit r.2).1 =
      Except.ok ({ c with cwd := fullPath f.dir (psplit r.2).1 },
        [Event.evCwd (psplit r.2).1]) := by
    simp only [ensureDir, hcwdM]
  have hdel : deleteM { c with cwd := fullPath f.dir (psplit r.2).1 } (psplit r.2).2 =
      Except.ok (false, { c with cwd := fullPath f.dir (psplit r.2).1 }) := by
    simp only [deleteM, serverDelete]
    rw [if_neg hmiss]
    rfl
  have hproc : processRecord f c r =
      Except.ok (RecordOutcome.processed, { c with cwd := fullPath f.dir (psplit r.2).1 },
        [Event.evCwd (psplit r.2).1, Event.evDelete (psplit r.2).2]) := by
    simp only [processRecord, if_neg hifile, if_neg hidir, hens]
    rw [if_neg (by simp), if_pos hD, hdel]
    rfl
  refine ⟨hproc, rfl, ?_⟩
  intro rest
  simp [processLoop, hproc]

theorem c6_witness :
    processRecord { files := [("D", "old/file.txt")], ignore := [], dir := "/root" }
        { fs := { dirs := ["/", "/root", "/root/old"], brokenDirs := [], files := [] },
          cwd := "/root" }
        ("D", "old/file.txt")
      = Except.ok (RecordOutcome.processed,
          { fs := { dirs := ["/", "/root", "/root/old"], brokenDirs := [], files := [] },
            cwd := "/root/old" },
          [Event.evCwd "old", Event.evDelete "file.txt"]) := by
  have h := (c6_delete_missing_nonfatal
    { files := [("D", "old/file.txt")], ignore := [], dir := "/root" }
    { fs := { dirs := ["/", "/root", "/root/old"], brokenDirs := [], files := [] },
      cwd := "/root" }
    ("D", "old/file.txt")
    rfl (by decide) (by decide) (by decide) (by decide) (by decide) (by decide)).1
  exact h

/-- C7: a record is skipped exactly by the two exact-membership checks:
if its path string is in the ignore list, nothing is done and the session
is unchanged (file-level match); otherwise, if its containing directory
with a trailing separator is in the list, likewise (directory-level
match); and when neither membership holds the record is never skipped —
the engine's first remote operation (`change_directory`) is attempted,
and any successful record outcome is `processed`. -/
theorem c7_ignore_matching (f : Ftp) (c : FtpConn) (r : String × String) :
    (r.2 ∈ f.ignore → processRecord f c r = Except.ok (RecordOutcome.ignoredFile, c, [])) ∧
    (r.2 ∉ f.ignore → pjoin (psplit r.2).1 "" ∈ f.ignore →
      processRecord f c r = Except.ok (RecordOutcome.ignoredDir, c, [])) ∧
    (r.2 ∉ f.ignore → pjoin (psplit r.2).1 "" ∉ f.ignore →
      (resTrace (processRecord f c r)).head? = some (Event.evCwd (psplit r.2).1) ∧
      (∀ out c2 tr, processRecord f c r = Except.ok (out, c2, tr) →
        out = RecordOutcome.processed)) := by
  refine ⟨?_, ?_, ?_⟩
  · intro h
    simp [processRecord, h]
  · intro h1 h2
    simp [processRecord, h1, h2]
  · intro h1 h2
    cases hens : ensureDir f c (psplit r.2).1 with
    | error etr =>
      obtain ⟨e, tr⟩ := etr
      have htr := (ensureDir_trace_shape f c (psplit r.2).1).2 e tr hens
      have hpr : processRecord f c r = Except.error (e, tr) := by
        simp only [processRecord, if_neg h1, if_neg h2, hens]
      constructor
      · rw [hpr]
        rcases htr with h | h <;> simp [resTrace, h]
      · intro out c2 tr2 hok
        rw [hpr] at hok
        exact absurd hok (by simp)
    | ok ctr =>
      obtain ⟨c2, tr⟩ := ctr
      have htr := (ensureDir_trace_shape f c (psplit r.2).1).1 c2 tr hens
      by_cases hinv : fullPath f.dir (psplit r.2).1 ≠ c2.cwd
      · have hpr : processRecord f c r = Except.error (PyExc.runtimeError, tr) := by
          simp only [processRecord, if_neg h1, if_neg h2, hens]
          rw [if_pos hinv]
        constructor
        · rw [hpr]
          rcases htr with h | h <;> simp [resTrace, h]
        · intro out c2b tr2 hok
          rw [hpr] at hok
          exact absurd hok (by simp)
      · by_cases hD : r.1 = "D"
        · cases hdel : deleteM c2 (psplit r.2).2 with
          | ok bc =>
            obtain ⟨b, c3⟩ := bc
            have hpr : processRecord f c r = Except.ok (RecordOutcome.processed, c3,
                tr ++ [Event.evDelete (psplit r.2).2]) := by
              simp only [processRecord, if_neg h1, if_neg h2, hens]
              rw [if_neg hinv, if_pos hD, hdel]
            constructor
            · rw [hpr]
              rcases htr with h | h <;> simp [resTrace, h]
            · intro out c2b tr2 hok
              rw [hpr] at hok
              simp at hok
              exact hok.1.symm
          | error e =>
            have hpr : processRecord f c r = Except.error (e,
                tr ++ [Event.evDelete (psplit r.2).2]) := by
              simp only [processRecord, if_neg h1, if_neg h2, hens]
              rw [if_neg hinv, if_pos hD, hdel]
            constructor
            · rw [hpr]
              rcases htr with h | h <;> simp [resTrace, h]
            · intro out c2b tr2 hok
              rw [hpr] at hok
              exact absurd hok (by simp)
        · cases hup : uploadM c2 (psplit r.2).2 with
          | ok c3 =>
            have hpr : processRecord f c r = Except.ok (RecordOutcome.processed, c3,
                tr ++ [Event.evUpload r.2 (psplit r.2).2]) := by
              simp only [processRecord, if_neg h1, if_neg h2, hens]
              rw [if_neg hinv, if_neg hD, hup]
            constructor
            · rw [hpr]
              rcases htr with h | h <;> simp [resTrace, h]
            · intro out c2b tr2 hok
              rw [hpr] at hok
              simp at hok
              exact hok.1.symm
          | error e =>
            have hpr : processRecord f c r = Except.error (e,
                tr ++ [Event.evUpload r.2 (psplit r.2).2]) := by
              simp only [processRecord, if_neg h1, if_neg h2, hens]
              rw [if_neg hinv, if_neg hD, hup]
            constructor
            · rw [hpr]
              rcases htr with h | h <;> simp [resTrace, h]
            · intro out c2b tr2 hok
              rw [hpr] at hok
              exact absurd hok (by simp)

theorem c7_witness :
    processRecord { files := [], ignore := ["old/"], dir := "/root" }
        { fs := { dirs := ["/", "/root", "/root/old"], brokenDirs := [], files := [] },
          cwd := "/root" }
        ("D", "old/file.txt")
      = Except.ok (RecordOutcome.ignoredDir,
          { fs := { dirs := ["/", "/root", "/root/old"], brokenDirs := [], files := [] },
            cwd := "/root" }, []) :=
  (c7_ignore_matching
    { files := [], ignore := ["old/"], dir := "/root" }
    { fs := { dirs := ["/", "/root", "/root/old"], brokenDirs := [], files := [] },
      cwd := "/root" }
    ("D", "old/file.txt")).2.1 (by decide) (by decide)

/-- C8 counterexample: calling disconnect on a session that is not
connected (`self._ftp` is `None`) raises `AttributeError` instead of
being a no-op. -/
theorem c8_counterexample :
    disconnectRun none = Except.error PyExc.attributeError := rfl

/-- C8 (amended): disconnect closes an open session and clears the
handle; on a session that is not connected it is not an idempotent no-op
but raises `AttributeError`, because `quit()` is called on `None`
unconditionally. -/
theorem c8_disconnect_behavior :
    (∀ c : FtpConn, disconnectRun (some c) = Except.ok none) ∧
    disconnectRun none = Except.error PyExc.attributeError :=
  ⟨fun _ => rfl, rfl⟩

/-- C9: a blank or whitespace-only line of a loaded ignore file is
stripped to the empty string and kept as an entry; joining an empty
directory with a trailing separator also yields the empty string; and so
with "" in the ignore set every root-level record (path without a
directory component) that is not itself file-matched is skipped by the
directory-level match, with the session untouched. -/
theorem c9_blank_line_root_skip
    (f : Ftp) (lines : List String) (df : Option String) (l : String)
    (hl : l ∈ lines) (hblank : ∀ d ∈ l.data, pySpace d = true) :
    "" ∈ (Ftp.ignoreRun f (some lines) df).ignore ∧
    pjoin "" "" = "" ∧
    (∀ (g : Ftp) (cx : FtpConn) (rec : String × String),
      "" ∈ g.ignore → '/' ∉ rec.2.data → rec.2 ∉ g.ignore →
      processRecord g cx rec = Except.ok (RecordOutcome.ignoredDir, cx, [])) := by
  refine ⟨?_, rfl, ?_⟩
  · have hstr : pyStrip l = "" := pyStrip_all_space l hblank
    have hmem : "" ∈ lines.map pyStrip := by
      rw [← hstr]
      exact List.mem_map_of_mem pyStrip hl
    have hbase : "" ∈ lines.map pyStrip ++ [SCRIPT, IGNORE] :=
      List.mem_append_left _ hmem
    cases df with
    | none => exact hbase
    | some d =>
      simp only [Ftp.ignoreRun]
      by_cases hd : d = ""
      · rw [if_neg (fun hcon => hcon hd)]
        exact hbase
      · rw [if_pos hd]
        exact List.mem_append_left _ hbase
  · intro g cx rec hempty hns hfile
    have hps : psplit rec.2 = ("", rec.2) := psplit_no_slash rec.2 hns
    have hdir : pjoin (psplit rec.2).1 "" ∈ g.ignore := by
      rw [hps]
      exact hempty
    simp [processRecord, hfile, hdir]

theorem c9_witness :
    "" ∈ (Ftp.ignoreRun Ftp.init (some ["  ", "keep.txt"]) none).ignore ∧
    processRecord (Ftp.ignoreRun Ftp.init (some ["  ", "keep.txt"]) none)
        { fs := { dirs := ["/", "/root"], brokenDirs := [], files := [] }, cwd := "/root" }
        ("M", "a.txt")
      = Except.ok (RecordOutcome.ignoredDir,
          { fs := { dirs := ["/", "/root"], brokenDirs := [], files := [] },
            cwd := "/root" }, []) := by
  have h := c9_blank_line_root_skip Ftp.init ["  ", "keep.txt"] none "  "
    (by decide) (by decide)
  exact ⟨h.1, h.2.2 _ _ _ (by decide) (by decide) (by decide)⟩

theorem mkdLoop_ok :
    ∀ (elems : List String) (c : FtpConn),
      (∀ e ∈ elems, e.data ≠ [] ∧ '/' ∉ e.data) →
      (∀ n ∈ chainNodes c.cwd elems, n ∉ c.fs.brokenDirs) →
      ∃ created,
        mkdLoop c elems = Except.ok
          { fs := { dirs := created ++ c.fs.dirs, brokenDirs := c.fs.brokenDirs,
                    files := c.fs.files },
            cwd := chainEnd c.cwd elems } ∧
        (∀ n ∈ created, n ∈ chainNodes c.cwd elems ∧ n ∉ c.fs.dirs) ∧
        (∀ n ∈ chainNodes c.cwd elems, n ∈ created ++ c.fs.dirs) := by
  intro elems
  induction elems with
  | nil =>
    intro c _ _
    exact ⟨[], rfl, by simp, by simp [chainNodes]⟩
  | cons e rest ih =>
    intro c hel hnb
    have he := hel e (List.mem_cons_self e rest)
    have hhd : e.data.head? ≠ some '/' := head?_ne_slash he.1 he.2
    have hchain : chainNodes c.cwd (e :: rest) =
        pjoin c.cwd e :: chainNodes (pjoin c.cwd e) rest := rfl
    have hn0 : pjoin c.cwd e ∉ c.fs.brokenDirs :=
      hnb (pjoin c.cwd e) (by rw [hchain]; exact List.mem_cons_self _ _)
    have helr : ∀ x ∈ rest, x.data ≠ [] ∧ '/' ∉ x.data :=
      fun x hx => hel x (List.mem_cons_of_mem _ hx)
    by_cases hmem : pjoin c.cwd e ∈ c.fs.dirs
    · have hserv : serverCwd c e = Except.ok { c with cwd := pjoin c.cwd e } := by
        simp only [serverCwd, resolveArg, if_neg hhd]
        rw [if_neg hn0, if_pos hmem]
      obtain ⟨created, hrun, hprop, hcov⟩ :=
        ih { c with cwd := pjoin c.cwd e } helr (by
          intro n hn
          apply hnb n
          rw [hchain]
          exact List.mem_cons_of_mem _ hn)
      refine ⟨created, ?_, ?_, ?_⟩
      · simp only [mkdLoop, hserv]
        exact hrun
      · intro n hn
        obtain ⟨h1, h2⟩ := hprop n hn
        exact ⟨by rw [hchain]; exact List.mem_cons_of_mem _ h1, h2⟩
      · intro n hn
        rw [hchain] at hn
        rcases List.mem_cons.mp hn with h | h
        · rw [h]
          exact List.mem_append_right _ hmem
        · exact hcov n h
    · have hserv : serverCwd c e = Except.error "550 failed to change directory" := by
        simp only [serverCwd, resolveArg, if_neg hhd]
        rw [if_neg hn0, if_neg hmem]
      have hmkd : serverMkd c e =
          Except.ok { c with fs := { c.fs with dirs := pjoin c.cwd e :: c.fs.dirs } } := by
        simp only [serverMkd, resolveArg, if_neg hhd]
      have hserv2 : serverCwd { c with fs := { c.fs with dirs := pjoin c.cwd e :: c.fs.dirs } } e
          = Except.ok { fs := { dirs := pjoin c.cwd e :: c.fs.dirs,
                                brokenDirs := c.fs.brokenDirs, files := c.fs.files },
                        cwd := pjoin c.cwd e } := by
        simp [serverCwd, resolveArg, if_neg hhd, hn0]
      obtain ⟨created, hrun, hprop, hcov⟩ :=
        ih { fs := { dirs := pjoin c.cwd e :: c.fs.dirs, brokenDirs := c.fs.brokenDirs,
                     files := c.fs.files }, cwd := pjoin c.cwd e } helr (by
          intro n hn
          apply hnb n
          rw [hchain]
          exact List.mem_cons_of_mem _ hn)
      have h550 : is550 "550 failed to change directory" = true := rfl
      refine ⟨created ++ [pjoin c.cwd e], ?_, ?_, ?_⟩
      · simp only [mkdLoop, hserv]
        rw [if_pos h550, hmkd]
        simp only []
        rw [hserv2]
        simp only []
        rw [hrun]
        simp only [List.append_assoc, List.singleton_append]
        rfl
      · intro n hn
        rcases List.mem_append.mp hn with h | h
        · obtain ⟨h1, h2⟩ := hprop n h
          refine ⟨by rw [hchain]; exact List.mem_cons_of_mem _ h1, ?_⟩
          intro hcon
          exact h2 (List.mem_cons_of_mem _ hcon)
        · have heq : n = pjoin c.cwd e := by simpa using h
          rw [heq]
          exact ⟨by rw [hchain]; exact List.mem_cons_self _ _, hmem⟩
      · intro n hn
        rw [hchain] at hn
        rcases List.mem_cons.mp hn with h | h
        · rw [h]
          exact List.mem_append_left _ (List.mem_append_right _ (by simp))
        · have h2 := hcov n h
          rcases List.mem_append.mp h2 with h3 | h3
          · exact List.mem_append_left _ (List.mem_append_left _ h3)
          · rcases List.mem_cons.mp h3 with h4 | h4
            · rw [h4]
              exact List.mem_append_left _ (List.mem_append_right _ (by simp))
            · exact List.mem_append_right _ h4

/-- C4: `make_directory_path` first returns to the project root, then
walks the relative path's slash-separated segments one by one, entering
each and creating a directory only where entry failed with the 550
NotFound signal; a per-segment entry failure that is not NotFound does
not abort the walk (the loop just moves on); and on success the session
ends positioned inside the target directory (the project root joined with
the path), with every chain directory present, files untouched, and no
directory created that already existed. -/
theorem c4_make_directory_path
    (f : Ftp) (c : FtpConn) (path : String)
    (hne : ∀ e ∈ pySplitChar '/' path, e ≠ "")
    (hroot0 : f.dir.data.head? = some '/')
    (hrootLast : f.dir.data.getLast? ≠ some '/')
    (hrootDir : f.dir ∈ c.fs.dirs)
    (hrootOk : f.dir ∉ c.fs.brokenDirs)
    (hnb : ∀ n ∈ chainNodes f.dir (pySplitChar '/' path), n ∉ c.fs.brokenDirs) :
    ∃ c',
      Ftp.mkdM f c path = Except.ok c' ∧
      c'.cwd = fullPath f.dir path ∧
      (∀ n ∈ chainNodes f.dir (pySplitChar '/' path), n ∈ c'.fs.dirs) ∧
      c'.fs.files = c.fs.files ∧
      c'.fs.brokenDirs = c.fs.brokenDirs ∧
      (∀ dd ∈ c.fs.dirs, dd ∈ c'.fs.dirs) ∧
      (∀ dd ∈ c'.fs.dirs, dd ∈ c.fs.dirs ∨
        (dd ∈ chainNodes f.dir (pySplitChar '/' path) ∧ dd ∉ c.fs.dirs)) ∧
      (∀ (cx : FtpConn) (e : String) (els : List String) (msg : String),
        serverCwd cx e = Except.error msg → is550 msg = false →
        mkdLoop cx (e :: els) = mkdLoop cx els) := by
  have hel : ∀ e ∈ pySplitChar '/' path, e.data ≠ [] ∧ '/' ∉ e.data := by
    intro e hx
    exact ⟨str_data_ne_nil (hne e hx), pySplitChar_elems_no_slash path e hx⟩
  have hd0 : f.dir.data ≠ [] := by
    intro hcon
    rw [hcon] at hroot0
    simp at hroot0
  have habs : resolveArg c f.dir = f.dir := by
    simp only [resolveArg, if_pos hroot0]
  have hserv : serverCwd c f.dir = Except.ok { c with cwd := f.dir } := by
    simp only [serverCwd, habs]
    rw [if_neg hrootOk, if_pos hrootDir]
  obtain ⟨created, hrun, hprop, hcov⟩ :=
    mkdLoop_ok (pySplitChar '/' path) { c with cwd := f.dir } hel hnb
  refine ⟨{ fs := { dirs := created ++ c.fs.dirs, brokenDirs := c.fs.brokenDirs,
                    files := c.fs.files },
            cwd := chainEnd f.dir (pySplitChar '/' path) }, ?_, ?_, ?_, rfl, rfl, ?_, ?_, ?_⟩
  · simp only [Ftp.mkdM, hserv]
    exact hrun
  · exact chainEnd_eq_fullPath f.dir path (pySplitChar '/' path) rfl hd0 hrootLast hel
  · intro n hn
    exact hcov n hn
  · intro dd hd
    exact List.mem_append_right _ hd
  · intro dd hd
    rcases List.mem_append.mp hd with h | h
    · exact Or.inr (hprop dd h)
    · exact Or.inl h
  · intro cx e els msg hserv2 h550
    simp only [mkdLoop, hserv2]
    rw [if_neg (by simp [h550])]

theorem c4_witness :
    ∃ c',
      Ftp.mkdM { files := [("A", "docs/new/page.html")], ignore := [], dir := "/root" }
          { fs := { dirs := ["/", "/root"], brokenDirs := [], files := [] }, cwd := "/root" }
          "docs/new"
        = Except.ok c' ∧
      c'.cwd = fullPath "/root" "docs/new" ∧
      (∀ n ∈ chainNodes "/root" (pySplitChar '/' "docs/new"), n ∈ c'.fs.dirs) := by
  obtain ⟨c', h1, h2, h3, _⟩ := c4_make_directory_path
    { files := [("A", "docs/new/page.html")], ignore := [], dir := "/root" }
    { fs := { dirs := ["/", "/root"], brokenDirs := [], files := [] }, cwd := "/root" }
    "docs/new" (by decide) (by decide) (by decide) (by decide) (by decide) (by decide)
  exact ⟨c', h1, h2, h3⟩

theorem c5_witness :
    (Ftp.diffRun { files := [], ignore := [], dir := "" } "M a.txt").files
      = [("M", "a.txt")] := by
  have h := (c5_changeset_parsing { files := [], ignore := [], dir := "" } "M a.txt").1
  rw [h]
  rfl

theorem c8_witness :
    disconnectRun (some { fs := { dirs := [], brokenDirs := [], files := [] }, cwd := "" })
      = Except.ok none :=
  c8_disconnect_behavior.1 { fs := { dirs := [], brokenDirs := [], files := [] }, cwd := "" }
